import Mathlib

/-!
# OpenMV image library: a shallow embedding of `src/omv/img/imlib.h`

The header defines the pixel-format helpers (RGB565 split and merge, format
predicates, in-bounds predicates, row-major pixel access) and declares the
integral-image and rectangle-merge entry points.  The helpers are embedded
expression by expression.  C integers are modelled by `Nat` / `Int`; where a
value is stored into a fixed-width unsigned cell the reduction modulo `2 ^ width`
is written out explicitly, and the `int` arithmetic of the pixel subscript wraps
to 32 bits.
-/

namespace Imlib

/-! ## Data model (the `typedef struct` declarations of the header) -/

/-- Rectangle `rectangle_t`: four `int16_t` fields. -/
structure rectangle_t where
  x : Int
  y : Int
  w : Int
  h : Int
deriving DecidableEq, Repr

/-- Image `image_t`: `int w, h, bpp` and the pixel buffer.  The buffer is kept as
the list of its elements in the view selected by the reader (`uint8_t` cells for
grayscale, `uint16_t` cells for RGB565); a reader reduces the element modulo the
cell width. -/
structure image_t where
  w : Int
  h : Int
  bpp : Int
  pixels : List Nat
deriving DecidableEq, Repr

/-- `IM_R565(p)`: `((_p)>>3)&0x1F`. -/
def IM_R565 (p : Nat) : Nat := (p >>> 3) &&& 0x1F

/-- `IM_G565(p)`: `(((_p)&0x07)<<3)|((_p)>>13)`. -/
def IM_G565 (p : Nat) : Nat := ((p &&& 0x07) <<< 3) ||| (p >>> 13)

/-- `IM_B565(p)`: `((_p)>>8)&0x1F`. -/
def IM_B565 (p : Nat) : Nat := (p >>> 8) &&& 0x1F

/-- `IM_RGB565(r, g, b)`: `((_r)<<3)|((_g)>>3)|((_g)<<13)|((_b)<<8)`.  The operands
are promoted to `int` before shifting, so for channel values in range nothing is
lost and the value of the expression is the natural number computed here. -/
def IM_RGB565 (r g b : Nat) : Nat := (r <<< 3) ||| (g >>> 3) ||| (g <<< 13) ||| (b <<< 8)

/-- `IM_MAX_R5`. -/
def IM_MAX_R5 : Nat := 31

/-- `IM_MAX_G6`. -/
def IM_MAX_G6 : Nat := 63

/-- `IM_MAX_B5`. -/
def IM_MAX_B5 : Nat := 31

/-- `IM_R528(p)`: `rb528_table[_p]`.  The table is `extern`; it is a parameter
here and the read is checked against its length. -/
def IM_R528 (rb528_table : List Nat) (p : Nat) : Option Nat := rb528_table[p]?

/-- `IM_G628(p)`: `g628_table[_p]`, the table being a parameter. -/
def IM_G628 (g628_table : List Nat) (p : Nat) : Option Nat := g628_table[p]?

/-- `IM_B528(p)`: `rb528_table[_p]`, the table being a parameter. -/
def IM_B528 (rb528_table : List Nat) (p : Nat) : Option Nat := rb528_table[p]?

/-- `IM_SWAP16(x)` is `__REV16(x)`, a compiler intrinsic; following the header's
comment ("swap bottom two chars in short") it exchanges the two low bytes. -/
def IM_SWAP16 (x : Nat) : Nat := ((x &&& 0xFF) <<< 8) ||| ((x >>> 8) &&& 0xFF)

/-- The standard RGB565 packing `(r << 11) | (g << 5) | b`, against which the
byte-reversed merge is compared. -/
def rgb565_standard (r g b : Nat) : Nat := (r <<< 11) ||| (g <<< 5) ||| b

/-! ## Format and bounds predicates, pixel access -/

/-- `IM_IS_NULL(img)`: `_img->bpp <= 0`. -/
def IM_IS_NULL (img : image_t) : Bool := decide (img.bpp ≤ 0)

/-- `IM_IS_GS(img)`: `_img->bpp == 1`. -/
def IM_IS_GS (img : image_t) : Bool := decide (img.bpp = 1)

/-- `IM_IS_RGB565(img)`: `_img->bpp == 2`. -/
def IM_IS_RGB565 (img : image_t) : Bool := decide (img.bpp = 2)

/-- `IM_IS_JPEG(img)`: `_img->bpp >= 3`. -/
def IM_IS_JPEG (img : image_t) : Bool := decide (img.bpp ≥ 3)

/-- `IM_X_INSIDE(img, x)`: `(0<=_x)&&(_x<_img->w)`. -/
def IM_X_INSIDE (img : image_t) (x : Int) : Bool := decide (0 ≤ x) && decide (x < img.w)

/-- `IM_Y_INSIDE(img, y)`: `(0<=_y)&&(_y<_img->h)`. -/
def IM_Y_INSIDE (img : image_t) (y : Int) : Bool := decide (0 ≤ y) && decide (y < img.h)

/-- The value of an integer expression held in a 32-bit two's-complement `int`. -/
def wrap_int32 (v : Int) : Int := (v + 2 ^ 31) % 2 ^ 32 - 2 ^ 31

/-- The subscript `(_y*_img->w)+_x` shared by `IM_GET_GS_PIXEL`,
`IM_GET_RGB565_PIXEL`, `IM_SET_GS_PIXEL` and `IM_SET_RGB565_PIXEL`.  `_img->w` is
an `int`, so with `int` coordinates the product and the sum are computed in `int`;
each result is reduced to 32 bits. -/
def pixel_index (img : image_t) (x y : Int) : Int :=
  wrap_int32 (wrap_int32 (y * img.w) + x)

/-- `IM_GET_RGB565_PIXEL(img, x, y)`: `((uint16_t*)_img->pixels)[(_y*_img->w)+_x]`. -/
def IM_GET_RGB565_PIXEL (img : image_t) (x y : Int) : Nat :=
  img.pixels.getD (pixel_index img x y).toNat 0 % 2 ^ 16

/-- `IM_SET_RGB565_PIXEL(img, x, y, p)`: the assignment into a `uint16_t` cell keeps
the low 16 bits of `p`. -/
def IM_SET_RGB565_PIXEL (img : image_t) (x y : Int) (p : Nat) : image_t :=
  { img with pixels := img.pixels.set (pixel_index img x y).toNat (p % 2 ^ 16) }

/-! ## Integral image -/

/-- Modelled from the spec: the body of `rectangle_intersects` is not in the header.
Section 3: "intersection is non-empty overlap of the two axis-aligned boxes". -/
def rectangle_intersects (r1 r2 : rectangle_t) : Bool :=
  decide (max r1.x r2.x < min (r1.x + r1.w) (r2.x + r2.w)) &&
  decide (max r1.y r2.y < min (r1.y + r1.h) (r2.y + r2.h))

/-- Union bounding box of two rectangles. -/
def rectangle_union (r1 r2 : rectangle_t) : rectangle_t :=
  { x := min r1.x r2.x
    y := min r1.y r2.y
    w := max (r1.x + r1.w) (r2.x + r2.w) - min r1.x r2.x
    h := max (r1.y + r1.h) (r2.y + r2.h) - min r1.y r2.y }

/-- Union bounding box of a cluster, the first representative policy named in
Section 4.4. -/
def cluster_bounding_box : List rectangle_t → rectangle_t
  | [] => ⟨0, 0, 0, 0⟩
  | r :: rs => rs.foldl rectangle_union r

/-- Grow a cluster to its connected closure: move every remaining rectangle that
intersects a member of the cluster into the cluster, and repeat until a round moves
nothing.  Each productive round shortens `rest`, so `rest.length` rounds suffice. -/
def grow_cluster : Nat → List rectangle_t → List rectangle_t → List rectangle_t × List rectangle_t
  | 0, cluster, rest => (cluster, rest)
  | fuel + 1, cluster, rest =>
    let hit := rest.filter (fun r => cluster.any (fun c => rectangle_intersects c r))
    let miss := rest.filter (fun r => !(cluster.any (fun c => rectangle_intersects c r)))
    if hit.isEmpty then (cluster, rest) else grow_cluster fuel (cluster ++ hit) miss

/-- Clusters in discovery order: the first remaining rectangle seeds a cluster, the
cluster is grown to its connected closure, and the scan continues on what is left. -/
def merge_clusters : Nat → List rectangle_t → List (List rectangle_t)
  | 0, _ => []
  | _ + 1, [] => []
  | fuel + 1, r :: rs =>
    let grown := grow_cluster rs.length [r] rs
    grown.1 :: merge_clusters fuel grown.2

/-- Modelled from the spec: the body of `rectangle_merge` is not in the header (only
its declaration is).  Section 4.4: rectangles whose pairwise intersection test holds
are grouped into connected clusters and each cluster is replaced by a single
representative rectangle.  The representative policy is left open by the spec and is
the parameter `rep`. -/
def rectangle_merge (rep : List rectangle_t → rectangle_t) (rectangles : List rectangle_t) :
    List rectangle_t :=
  (merge_clusters rectangles.length rectangles).map rep


/-! ## Bitwise operations as arithmetic -/

theorem shl_or_eq_add (a b i : Nat) (hb : b < 2 ^ i) : (a <<< i) ||| b = a * 2 ^ i + b := by
  rw [Nat.shiftLeft_eq, Nat.mul_comm a, ← Nat.mul_add_lt_is_or hb]

theorem and_31_eq_mod (x : Nat) : x &&& 0x1F = x % 32 :=
  Nat.and_pow_two_sub_one_eq_mod x 5

theorem and_7_eq_mod (x : Nat) : x &&& 0x07 = x % 8 :=
  Nat.and_pow_two_sub_one_eq_mod x 3

theorem and_255_eq_mod (x : Nat) : x &&& 0xFF = x % 256 :=
  Nat.and_pow_two_sub_one_eq_mod x 8

theorem IM_R565_eq (p : Nat) : IM_R565 p = p / 8 % 32 := by
  unfold IM_R565
  rw [and_31_eq_mod]; omega

theorem IM_B565_eq (p : Nat) : IM_B565 p = p / 256 % 32 := by
  unfold IM_B565
  rw [and_31_eq_mod]; omega

theorem IM_G565_eq (p : Nat) (hp : p < 65536) : IM_G565 p = p % 8 * 8 + p / 8192 := by
  unfold IM_G565
  rw [and_7_eq_mod, shl_or_eq_add (p % 8) (p >>> 13) 3 (by omega)]; omega

theorem IM_RGB565_eq (r g b : Nat) (hr : r < 32) (hg : g < 64) (hb : b < 32) :
    IM_RGB565 r g b = g * 8192 + b * 256 + r * 8 + g / 8 := by
  unfold IM_RGB565
  have e : (r <<< 3) ||| (g >>> 3) ||| (g <<< 13) ||| (b <<< 8)
      = (g <<< 13) ||| ((b <<< 8) ||| ((r <<< 3) ||| (g >>> 3))) := by ac_rfl
  have h1 : (r <<< 3) ||| (g >>> 3) = r * 2 ^ 3 + g >>> 3 :=
    shl_or_eq_add r (g >>> 3) 3 (by omega)
  have h2 : (b <<< 8) ||| (r * 2 ^ 3 + g >>> 3) = b * 2 ^ 8 + (r * 2 ^ 3 + g >>> 3) :=
    shl_or_eq_add b _ 8 (by omega)
  have h3 : (g <<< 13) ||| (b * 2 ^ 8 + (r * 2 ^ 3 + g >>> 3))
      = g * 2 ^ 13 + (b * 2 ^ 8 + (r * 2 ^ 3 + g >>> 3)) :=
    shl_or_eq_add g _ 13 (by omega)
  rw [e, h1, h2, h3]; omega

theorem IM_RGB565_mod_eq (r g b : Nat) (hr : r < 32) (hg : g < 64) (hb : b < 32) :
    IM_RGB565 r g b % 65536 = g % 8 * 8192 + b * 256 + r * 8 + g / 8 := by
  rw [IM_RGB565_eq r g b hr hg hb]; omega

theorem green_or_self : ∀ g, g < 64 → ((g / 8) <<< 3) ||| g = g := by decide

theorem IM_SWAP16_eq (x : Nat) : IM_SWAP16 x = x % 256 * 256 + x / 256 % 256 := by
  unfold IM_SWAP16
  rw [and_255_eq_mod, and_255_eq_mod, shl_or_eq_add _ _ 8 (by omega)]; omega

theorem rgb565_standard_eq (r g b : Nat) (hg : g < 64) (hb : b < 32) :
    rgb565_standard r g b = r * 2048 + g * 32 + b := by
  unfold rgb565_standard
  have e : (r <<< 11) ||| (g <<< 5) ||| b = (r <<< 11) ||| ((g <<< 5) ||| b) := by ac_rfl
  rw [e, shl_or_eq_add g b 5 (by omega), shl_or_eq_add r _ 11 (by omega)]; omega

/-! ## Format predicates -/

/-- C3: for every image, whatever the integer `bpp`, exactly one of `IM_IS_NULL`,
`IM_IS_GS`, `IM_IS_RGB565`, `IM_IS_JPEG` holds; with `bpp = 1` it is `IM_IS_GS` and
with `bpp = 2` it is `IM_IS_RGB565`. -/
theorem format_predicates_exactly_one (img : image_t) :
    ((IM_IS_NULL img = true ∧ IM_IS_GS img = false ∧ IM_IS_RGB565 img = false ∧
        IM_IS_JPEG img = false) ∨
      (IM_IS_NULL img = false ∧ IM_IS_GS img = true ∧ IM_IS_RGB565 img = false ∧
        IM_IS_JPEG img = false) ∨
      (IM_IS_NULL img = false ∧ IM_IS_GS img = false ∧ IM_IS_RGB565 img = true ∧
        IM_IS_JPEG img = false) ∨
      (IM_IS_NULL img = false ∧ IM_IS_GS img = false ∧ IM_IS_RGB565 img = false ∧
        IM_IS_JPEG img = true)) ∧
    (IM_IS_NULL { img with bpp := 1 } = false ∧ IM_IS_GS { img with bpp := 1 } = true ∧
      IM_IS_RGB565 { img with bpp := 1 } = false ∧ IM_IS_JPEG { img with bpp := 1 } = false) ∧
    (IM_IS_NULL { img with bpp := 2 } = false ∧ IM_IS_GS { img with bpp := 2 } = false ∧
      IM_IS_RGB565 { img with bpp := 2 } = true ∧ IM_IS_JPEG { img with bpp := 2 } = false) := by
  refine ⟨?_, by simp [IM_IS_NULL, IM_IS_GS, IM_IS_RGB565, IM_IS_JPEG],
    by simp [IM_IS_NULL, IM_IS_GS, IM_IS_RGB565, IM_IS_JPEG]⟩
  simp only [IM_IS_NULL, IM_IS_GS, IM_IS_RGB565, IM_IS_JPEG, decide_eq_true_eq,
    decide_eq_false_iff_not]
  omega

/-! ## Row-major pixel index -/

theorem wrap_int32_of_fits (v : Int) (hlo : -(2 ^ 31) ≤ v) (hhi : v < 2 ^ 31) :
    wrap_int32 v = v := by
  unfold wrap_int32
  omega

theorem raw_index_nonneg (img : image_t) (x y : Int)
    (hx : IM_X_INSIDE img x = true) (hy : IM_Y_INSIDE img y = true) :
    0 ≤ y * img.w ∧ 0 ≤ y * img.w + x := by
  simp only [IM_X_INSIDE, IM_Y_INSIDE, Bool.and_eq_true, decide_eq_true_eq] at hx hy
  have := mul_nonneg hy.1 (show (0 : Int) ≤ img.w by omega)
  omega

theorem raw_index_lt (img : image_t) (x y : Int)
    (hx : IM_X_INSIDE img x = true) (hy : IM_Y_INSIDE img y = true) :
    y * img.w + x < img.w * img.h := by
  simp only [IM_X_INSIDE, IM_Y_INSIDE, Bool.and_eq_true, decide_eq_true_eq] at hx hy
  have h1 : (y + 1) * img.w ≤ img.h * img.w :=
    mul_le_mul_of_nonneg_right (by omega) (by omega)
  have h2 : img.h * img.w = img.w * img.h := mul_comm _ _
  have h3 : (y + 1) * img.w = y * img.w + img.w := by ring
  omega

theorem raw_index_inj (img : image_t) (x y x2 y2 : Int)
    (hx : IM_X_INSIDE img x = true) (hx2 : IM_X_INSIDE img x2 = true)
    (heq : y * img.w + x = y2 * img.w + x2) : x = x2 ∧ y = y2 := by
  simp only [IM_X_INSIDE, Bool.and_eq_true, decide_eq_true_eq] at hx hx2
  have hyy : y = y2 := by
    rcases lt_trichotomy y y2 with h | h | h
    · have h1 : (y + 1) * img.w ≤ y2 * img.w :=
        mul_le_mul_of_nonneg_right (by omega) (by omega)
      have h3 : (y + 1) * img.w = y * img.w + img.w := by ring
      omega
    · exact h
    · have h1 : (y2 + 1) * img.w ≤ y * img.w :=
        mul_le_mul_of_nonneg_right (by omega) (by omega)
      have h3 : (y2 + 1) * img.w = y2 * img.w + img.w := by ring
      omega
  subst hyy
  exact ⟨by omega, rfl⟩

/-- When the pixel count is at most `2 ^ 31`, no intermediate value of the subscript
leaves the range of `int` at in-bounds coordinates: the machine computation is the
integer one. -/
theorem pixel_index_of_fits (img : image_t) (x y : Int) (hfit : img.w * img.h ≤ 2 ^ 31)
    (hx : IM_X_INSIDE img x = true) (hy : IM_Y_INSIDE img y = true) :
    pixel_index img x y = y * img.w + x := by
  have h0 := raw_index_nonneg img x y hx hy
  have h1 := raw_index_lt img x y hx hy
  simp only [IM_X_INSIDE, IM_Y_INSIDE, Bool.and_eq_true, decide_eq_true_eq] at hx hy
  unfold pixel_index
  rw [wrap_int32_of_fits (y * img.w) (by omega) (by omega),
    wrap_int32_of_fits (y * img.w + x) (by omega) (by omega)]

/-- C4 (as stated, refuted): in the 65536 × 32769 image the in-bounds pair
`(0, 32768)` has `y*w = 2 ^ 31`, which the `int` subscript holds as `-2147483648`;
in the 65536 × 65537 image the distinct in-bounds pairs `(0, 0)` and `(0, 65536)`
both get subscript `0`.  Both images carry a buffer of `w*h` cells. -/
theorem pixel_index_out_of_bounds :
    ((0 : Int) < (⟨65536, 32769, 1, List.replicate 2147549184 0⟩ : image_t).w ∧
      (0 : Int) < (⟨65536, 32769, 1, List.replicate 2147549184 0⟩ : image_t).h ∧
      IM_X_INSIDE ⟨65536, 32769, 1, List.replicate 2147549184 0⟩ 0 = true ∧
      IM_Y_INSIDE ⟨65536, 32769, 1, List.replicate 2147549184 0⟩ 32768 = true ∧
      pixel_index ⟨65536, 32769, 1, List.replicate 2147549184 0⟩ 0 32768 = -2147483648 ∧
      ¬ (0 ≤ pixel_index ⟨65536, 32769, 1, List.replicate 2147549184 0⟩ 0 32768)) ∧
    ((0 : Int) < (⟨65536, 65537, 1, List.replicate 4295032832 0⟩ : image_t).w ∧
      (0 : Int) < (⟨65536, 65537, 1, List.replicate 4295032832 0⟩ : image_t).h ∧
      IM_X_INSIDE ⟨65536, 65537, 1, List.replicate 4295032832 0⟩ 0 = true ∧
      IM_Y_INSIDE ⟨65536, 65537, 1, List.replicate 4295032832 0⟩ 0 = true ∧
      IM_Y_INSIDE ⟨65536, 65537, 1, List.replicate 4295032832 0⟩ 65536 = true ∧
      ((0 : Int), (0 : Int)) ≠ (0, 65536) ∧
      pixel_index ⟨65536, 65537, 1, List.replicate 4295032832 0⟩ 0 0
        = pixel_index ⟨65536, 65537, 1, List.replicate 4295032832 0⟩ 0 65536) := by
  decide

/-- C4 (amended): in an image with `w > 0`, `h > 0` and at most `2 ^ 31` pixels
(`w*h ≤ 2 ^ 31`, so that every index up to `w*h - 1` fits in an `int`), every
coordinate pair accepted by `IM_X_INSIDE` and `IM_Y_INSIDE` has its buffer index
equal to `y*w + x` and lying in `[0, w*h)`, and two distinct accepted pairs have
distinct indices. -/
theorem pixel_index_in_bounds_injective (img : image_t) (x y x2 y2 : Int)
    (_hw : 0 < img.w) (_hh : 0 < img.h) (hfit : img.w * img.h ≤ 2 ^ 31)
    (hx : IM_X_INSIDE img x = true) (hy : IM_Y_INSIDE img y = true)
    (hx2 : IM_X_INSIDE img x2 = true) (hy2 : IM_Y_INSIDE img y2 = true) :
    pixel_index img x y = y * img.w + x ∧
    0 ≤ pixel_index img x y ∧ pixel_index img x y < img.w * img.h ∧
    ((x, y) ≠ (x2, y2) → pixel_index img x y ≠ pixel_index img x2 y2) := by
  have e1 := pixel_index_of_fits img x y hfit hx hy
  have e2 := pixel_index_of_fits img x2 y2 hfit hx2 hy2
  rw [e1, e2]
  refine ⟨rfl, (raw_index_nonneg img x y hx hy).2, raw_index_lt img x y hx hy, ?_⟩
  intro hne heq
  obtain ⟨h1, h2⟩ := raw_index_inj img x y x2 y2 hx hx2 heq
  exact hne (by rw [h1, h2])

/-- Witness for C4 (amended) on a 3 × 2 image. -/
theorem pixel_index_in_bounds_injective_witness :
    (0 : Int) < (⟨3, 2, 1, [1, 2, 3, 4, 5, 6]⟩ : image_t).w ∧
    (0 : Int) < (⟨3, 2, 1, [1, 2, 3, 4, 5, 6]⟩ : image_t).h ∧
    (⟨3, 2, 1, [1, 2, 3, 4, 5, 6]⟩ : image_t).w * (⟨3, 2, 1, [1, 2, 3, 4, 5, 6]⟩ : image_t).h
      ≤ 2 ^ 31 ∧
    IM_X_INSIDE ⟨3, 2, 1, [1, 2, 3, 4, 5, 6]⟩ 2 = true ∧
    IM_Y_INSIDE ⟨3, 2, 1, [1, 2, 3, 4, 5, 6]⟩ 0 = true ∧
    IM_X_INSIDE ⟨3, 2, 1, [1, 2, 3, 4, 5, 6]⟩ 0 = true ∧
    IM_Y_INSIDE ⟨3, 2, 1, [1, 2, 3, 4, 5, 6]⟩ 1 = true ∧
    (pixel_index ⟨3, 2, 1, [1, 2, 3, 4, 5, 6]⟩ 2 0 = 0 * 3 + 2 ∧
      0 ≤ pixel_index ⟨3, 2, 1, [1, 2, 3, 4, 5, 6]⟩ 2 0 ∧
      pixel_index ⟨3, 2, 1, [1, 2, 3, 4, 5, 6]⟩ 2 0 < 3 * 2 ∧
      (((2 : Int), (0 : Int)) ≠ (0, 1) →
        pixel_index ⟨3, 2, 1, [1, 2, 3, 4, 5, 6]⟩ 2 0 ≠
          pixel_index ⟨3, 2, 1, [1, 2, 3, 4, 5, 6]⟩ 0 1)) :=
  ⟨by decide, by decide, by decide, by decide, by decide, by decide, by decide,
    pixel_index_in_bounds_injective ⟨3, 2, 1, [1, 2, 3, 4, 5, 6]⟩ 2 0 0 1
      (by decide) (by decide) (by decide) (by decide) (by decide) (by decide) (by decide)⟩

/-! ## RGB565 split and merge -/

/-- C5 (as stated, refuted): at `r = 0, g = 8, b = 0`, inside the stated ranges, the
value of `IM_RGB565` is `65537`, while the byte-swapped standard packing is `1`. -/
theorem IM_RGB565_ne_swapped_standard :
    0 < 32 ∧ 8 < 64 ∧
    IM_RGB565 0 8 0 = 65537 ∧ IM_SWAP16 (rgb565_standard 0 8 0) = 1 ∧
    IM_RGB565 0 8 0 ≠ IM_SWAP16 (rgb565_standard 0 8 0) := by
  decide

/-- C5 (amended): for `r` in 0..31, `g` in 0..63, `b` in 0..31 the low 16 bits of
`IM_RGB565(r, g, b)` are the byte-swapped standard packing `(r << 11) | (g << 5) | b`;
the value of the expression itself carries the three high bits of `g` a second time,
at bits 16..18. -/
theorem IM_RGB565_low16_eq_swapped_standard (r g b : Nat)
    (hr : r < 32) (hg : g < 64) (hb : b < 32) :
    IM_RGB565 r g b % 2 ^ 16 = IM_SWAP16 (rgb565_standard r g b) ∧
    IM_RGB565 r g b = IM_SWAP16 (rgb565_standard r g b) + (g >>> 3) <<< 16 := by
  rw [IM_RGB565_eq r g b hr hg hb, IM_SWAP16_eq, rgb565_standard_eq r g b hg hb]
  have h1 : (r * 2048 + g * 32 + b) % 256 = (g % 8) * 32 + b := by omega
  have h2 : (r * 2048 + g * 32 + b) / 256 = r * 8 + g / 8 := by omega
  have h3 : (r * 8 + g / 8) % 256 = r * 8 + g / 8 := by omega
  rw [h1, h2, h3]
  omega

/-- Witness for C5 (amended) at `r = 31, g = 42, b = 7`. -/
theorem IM_RGB565_low16_eq_swapped_standard_witness :
    31 < 32 ∧ 42 < 64 ∧ 7 < 32 ∧
    (IM_RGB565 31 42 7 % 2 ^ 16 = IM_SWAP16 (rgb565_standard 31 42 7) ∧
      IM_RGB565 31 42 7 = IM_SWAP16 (rgb565_standard 31 42 7) + (42 >>> 3) <<< 16) :=
  ⟨by decide, by decide, by decide,
    IM_RGB565_low16_eq_swapped_standard 31 42 7 (by decide) (by decide) (by decide)⟩

/-- C6: splitting undoes merging.  For `r` in 0..31, `g` in 0..63, `b` in 0..31 and
`p = IM_RGB565(r, g, b)`, `IM_R565(p) = r`, `IM_G565(p) = g`, `IM_B565(p) = b`; the
same holds for the 16-bit cell that stores `p`. -/
theorem split_merge_roundtrip (r g b : Nat) (hr : r < 32) (hg : g < 64) (hb : b < 32) :
    (IM_R565 (IM_RGB565 r g b) = r ∧ IM_G565 (IM_RGB565 r g b) = g ∧
      IM_B565 (IM_RGB565 r g b) = b) ∧
    (IM_R565 (IM_RGB565 r g b % 2 ^ 16) = r ∧ IM_G565 (IM_RGB565 r g b % 2 ^ 16) = g ∧
      IM_B565 (IM_RGB565 r g b % 2 ^ 16) = b) := by
  have hp := IM_RGB565_eq r g b hr hg hb
  have hq := IM_RGB565_mod_eq r g b hr hg hb
  refine ⟨⟨?_, ?_, ?_⟩, ?_, ?_, ?_⟩
  · rw [IM_R565_eq]
    have h1 : IM_RGB565 r g b / 8 = 32 * (32 * g + b) + r := by omega
    rw [h1]; omega
  · have h := green_or_self g hg
    unfold IM_G565
    rw [and_7_eq_mod]
    have e1 : IM_RGB565 r g b % 8 = g / 8 := by omega
    have e2 : IM_RGB565 r g b >>> 13 = g := by omega
    rw [e1, e2]; exact h
  · rw [IM_B565_eq]
    have h1 : IM_RGB565 r g b / 256 = 32 * g + b := by omega
    rw [h1]; omega
  · rw [IM_R565_eq]
    have h1 : IM_RGB565 r g b % 2 ^ 16 / 8 = 32 * (32 * (g % 8) + b) + r := by omega
    rw [h1]; omega
  · rw [IM_G565_eq _ (by omega)]
    have h1 : IM_RGB565 r g b % 2 ^ 16 / 8192 = g % 8 := by omega
    have h2 : IM_RGB565 r g b % 2 ^ 16 % 8 = g / 8 := by omega
    rw [h1, h2]; omega
  · rw [IM_B565_eq]
    have h1 : IM_RGB565 r g b % 2 ^ 16 / 256 = 32 * (g % 8) + b := by omega
    rw [h1]; omega

/-- Witness for C6 at `r = 31, g = 42, b = 7`. -/
theorem split_merge_roundtrip_witness :
    31 < 32 ∧ 42 < 64 ∧ 7 < 32 ∧
    ((IM_R565 (IM_RGB565 31 42 7) = 31 ∧ IM_G565 (IM_RGB565 31 42 7) = 42 ∧
        IM_B565 (IM_RGB565 31 42 7) = 7) ∧
      (IM_R565 (IM_RGB565 31 42 7 % 2 ^ 16) = 31 ∧
        IM_G565 (IM_RGB565 31 42 7 % 2 ^ 16) = 42 ∧
        IM_B565 (IM_RGB565 31 42 7 % 2 ^ 16) = 7)) :=
  ⟨by decide, by decide, by decide,
    split_merge_roundtrip 31 42 7 (by decide) (by decide) (by decide)⟩

/-- C7: for every 16-bit pixel value `p` the split channels stay within `IM_MAX_R5`,
`IM_MAX_G6`, `IM_MAX_B5`, so the reads `rb528_table[IM_R565(p)]`,
`g628_table[IM_G565(p)]`, `rb528_table[IM_B565(p)]` of `IM_R528`, `IM_G628`,
`IM_B528` fall inside tables of the declared sizes 32 and 64. -/
theorem split_channels_within_maxima (rb528_table g628_table : List Nat)
    (hrb : rb528_table.length = 32) (hgt : g628_table.length = 64)
    (p : Nat) (hp : p < 65536) :
    IM_R565 p ≤ IM_MAX_R5 ∧ IM_G565 p ≤ IM_MAX_G6 ∧ IM_B565 p ≤ IM_MAX_B5 ∧
    (IM_R528 rb528_table (IM_R565 p)).isSome = true ∧
    (IM_G628 g628_table (IM_G565 p)).isSome = true ∧
    (IM_B528 rb528_table (IM_B565 p)).isSome = true := by
  have hr := IM_R565_eq p
  have hg := IM_G565_eq p hp
  have hb := IM_B565_eq p
  have h1 : IM_R565 p < rb528_table.length := by omega
  have h2 : IM_G565 p < g628_table.length := by omega
  have h3 : IM_B565 p < rb528_table.length := by omega
  refine ⟨by unfold IM_MAX_R5; omega, by unfold IM_MAX_G6; omega,
    by unfold IM_MAX_B5; omega, ?_, ?_, ?_⟩
  · simp [IM_R528, List.getElem?_eq_getElem h1]
  · simp [IM_G628, List.getElem?_eq_getElem h2]
  · simp [IM_B528, List.getElem?_eq_getElem h3]

/-- Witness for C7 at the all-ones pixel `0xFFFF` with zero-filled tables. -/
theorem split_channels_within_maxima_witness :
    (List.replicate 32 0).length = 32 ∧ (List.replicate 64 0).length = 64 ∧
    65535 < 65536 ∧
    (IM_R565 65535 ≤ IM_MAX_R5 ∧ IM_G565 65535 ≤ IM_MAX_G6 ∧ IM_B565 65535 ≤ IM_MAX_B5 ∧
      (IM_R528 (List.replicate 32 0) (IM_R565 65535)).isSome = true ∧
      (IM_G628 (List.replicate 64 0) (IM_G565 65535)).isSome = true ∧
      (IM_B528 (List.replicate 32 0) (IM_B565 65535)).isSome = true) :=
  ⟨by decide, by decide, by decide,
    split_channels_within_maxima (List.replicate 32 0) (List.replicate 64 0)
      (by decide) (by decide) 65535 (by decide)⟩

/-- C8: merging undoes splitting on 16-bit pixels.  For every `p < 65536` the low 16
bits of `IM_RGB565(IM_R565(p), IM_G565(p), IM_B565(p))`, which is what a `uint16_t`
pixel cell keeps, equal `p`. -/
theorem merge_split_roundtrip (p : Nat) (hp : p < 65536) :
    IM_RGB565 (IM_R565 p) (IM_G565 p) (IM_B565 p) % 2 ^ 16 = p := by
  have hr := IM_R565_eq p
  have hg := IM_G565_eq p hp
  have hb := IM_B565_eq p
  rw [IM_RGB565_eq _ _ _ (by omega) (by omega) (by omega), hr, hg, hb]
  have h1 : (p % 8 * 8 + p / 8192) / 8 = p % 8 := by omega
  have h2 : (p % 8 * 8 + p / 8192) * 8192 = 65536 * (p % 8) + p / 8192 * 8192 := by omega
  rw [h1, h2]
  have h3 : p / 8192 * 8192 + (p / 256 % 32) * 256 + (p / 8 % 32) * 8 + p % 8 = p := by
    omega
  omega

/-- Witness for C8 at `p = 0xBEEF`. -/
theorem merge_split_roundtrip_witness :
    48879 < 65536 ∧
    IM_RGB565 (IM_R565 48879) (IM_G565 48879) (IM_B565 48879) % 2 ^ 16 = 48879 :=
  ⟨by decide, merge_split_roundtrip 48879 (by decide)⟩

/-! ## Integral image -/

theorem grow_cluster_length (fuel : Nat) (cluster rest : List rectangle_t) :
    (grow_cluster fuel cluster rest).2.length ≤ rest.length := by
  induction fuel generalizing cluster rest with
  | zero => simp [grow_cluster]
  | succ n ih =>
    simp only [grow_cluster]
    split
    · exact le_rfl
    · exact le_trans (ih _ _) (List.length_filter_le _ _)

theorem grow_cluster_perm (fuel : Nat) (cluster rest : List rectangle_t) :
    List.Perm ((grow_cluster fuel cluster rest).1 ++ (grow_cluster fuel cluster rest).2)
      (cluster ++ rest) := by
  induction fuel generalizing cluster rest with
  | zero => simp [grow_cluster]
  | succ n ih =>
    simp only [grow_cluster]
    split
    · exact List.Perm.refl _
    · refine (ih _ _).trans ?_
      rw [List.append_assoc]
      exact List.Perm.append_left _ (List.filter_append_perm _ _)

theorem grow_cluster_closed (fuel : Nat) (cluster rest : List rectangle_t)
    (hfuel : rest.length ≤ fuel) :
    ∀ r ∈ (grow_cluster fuel cluster rest).2, ∀ c ∈ (grow_cluster fuel cluster rest).1,
      rectangle_intersects c r = false := by
  induction fuel generalizing cluster rest with
  | zero =>
    have : rest = [] := List.length_eq_zero.mp (Nat.le_zero.mp hfuel)
    subst this
    simp [grow_cluster]
  | succ n ih =>
    simp only [grow_cluster]
    split
    · rename_i hempty
      intro r hr c hc
      by_contra hne
      have hmem : r ∈ rest.filter (fun r => cluster.any (fun c => rectangle_intersects c r)) := by
        simp only [List.mem_filter, List.any_eq_true]
        exact ⟨hr, c, hc, by simpa using hne⟩
      rw [List.isEmpty_iff] at hempty
      rw [hempty] at hmem
      exact List.not_mem_nil _ hmem
    · rename_i hne
      apply ih
      have hsum := (List.filter_append_perm
        (fun r => cluster.any (fun c => rectangle_intersects c r)) rest).length_eq
      rw [List.length_append] at hsum
      have hpos : 0 < (rest.filter
          (fun r => cluster.any (fun c => rectangle_intersects c r))).length := by
        rw [List.length_pos]
        intro h
        exact hne (by rw [h]; rfl)
      omega

theorem merge_clusters_length (fuel : Nat) (rects : List rectangle_t) :
    (merge_clusters fuel rects).length ≤ rects.length := by
  induction fuel generalizing rects with
  | zero => simp [merge_clusters]
  | succ n ih =>
    cases rects with
    | nil => simp [merge_clusters]
    | cons r rs =>
      simp only [merge_clusters, List.length_cons]
      have h1 := ih (grow_cluster rs.length [r] rs).2
      have h2 := grow_cluster_length rs.length [r] rs
      omega

theorem merge_clusters_perm (fuel : Nat) (rects : List rectangle_t)
    (hfuel : rects.length ≤ fuel) :
    List.Perm (merge_clusters fuel rects).flatten rects := by
  induction fuel generalizing rects with
  | zero =>
    have : rects = [] := List.length_eq_zero.mp (Nat.le_zero.mp hfuel)
    subst this
    simp [merge_clusters]
  | succ n ih =>
    cases rects with
    | nil => simp [merge_clusters]
    | cons r rs =>
      simp only [merge_clusters, List.flatten_cons]
      have h2 := grow_cluster_length rs.length [r] rs
      have hlen : (grow_cluster rs.length [r] rs).2.length ≤ n := by
        simp only [List.length_cons] at hfuel
        omega
      exact (List.Perm.append_left _ (ih _ hlen)).trans (grow_cluster_perm rs.length [r] rs)

/-- Every input rectangle ends in exactly one cluster: the clusters of
`rectangle_merge`, concatenated, are a permutation of the input. -/
theorem rectangle_merge_clusters_perm (rects : List rectangle_t) :
    List.Perm (merge_clusters rects.length rects).flatten rects :=
  merge_clusters_perm rects.length rects le_rfl

/-- C2: for every list of raw detection rectangles (and every representative
policy), `rectangle_merge` returns at most as many rectangles as it was given. -/
theorem rectangle_merge_length_le (rep : List rectangle_t → rectangle_t)
    (rectangles : List rectangle_t) :
    (rectangle_merge rep rectangles).length ≤ rectangles.length := by
  unfold rectangle_merge
  rw [List.length_map]
  exact merge_clusters_length _ _

/-! ## Sanity checks of the modelled merger and of the 16-bit store -/

/-- Two detections with identical, non-empty bounds merge into one. -/
theorem rectangle_merge_identical (rep : List rectangle_t → rectangle_t) (r : rectangle_t)
    (hw : 0 < r.w) (hh : 0 < r.h) :
    rectangle_merge rep [r, r] = [rep [r, r]] := by
  have hint : rectangle_intersects r r = true := by
    simp only [rectangle_intersects, max_self, min_self, Bool.and_eq_true, decide_eq_true_eq]
    omega
  simp [rectangle_merge, merge_clusters, grow_cluster, hint]

/-- Two detections that do not intersect stay two separate outputs. -/
theorem rectangle_merge_disjoint (rep : List rectangle_t → rectangle_t) (r1 r2 : rectangle_t)
    (hdis : rectangle_intersects r1 r2 = false) :
    rectangle_merge rep [r1, r2] = [rep [r1], rep [r2]] := by
  simp [rectangle_merge, merge_clusters, grow_cluster, hdis]

/-- Reading back a pixel written by `IM_SET_RGB565_PIXEL` gives the low 16 bits of
the value written. -/
theorem IM_GET_SET_RGB565_PIXEL (img : image_t) (x y : Int) (p : Nat)
    (hidx : (pixel_index img x y).toNat < img.pixels.length) :
    IM_GET_RGB565_PIXEL (IM_SET_RGB565_PIXEL img x y p) x y = p % 2 ^ 16 := by
  simp [IM_GET_RGB565_PIXEL, IM_SET_RGB565_PIXEL, pixel_index, List.getD_eq_getElem?_getD] at hidx ⊢
  simp [hidx]

end Imlib
